import Mathlib

/-!
Verification of the chunking and subtitle-assembly pipeline of the
`eng_subtitles_for_indic_yt_videos` repository.

Strings are modelled as lists of characters (`Str`), millisecond offsets as
natural numbers, and the remote HTTP transport as an explicit outcome value.
Each definition is a shallow embedding of the corresponding Python function
in `utils.py` (or, where noted, is modelled from the specification because
the function's body is absent from the sources).
-/

set_option autoImplicit false

/-! ## Definitions: shallow embedding of the pipeline -/

abbrev Str := List Char

/-- One output segment of `split_audio_with_sliding_window`: the nominal
subtitle interval `[subtitle_start, subtitle_end)` and the exported audio
slice `[chunk_start, chunk_end)` (the context-padded window). -/
structure Segment where
  subtitle_start : ℕ
  subtitle_end : ℕ
  chunk_start : ℕ
  chunk_end : ℕ
  deriving DecidableEq, Repr

/-- Integer form of `math.ceil(total_duration / chunk_duration_ms)` used by
`split_audio_with_sliding_window` to count chunks. -/
def num_chunks (total_duration chunk_duration_ms : ℕ) : ℕ :=
  (total_duration + chunk_duration_ms - 1) / chunk_duration_ms

/-- Loop body of `split_audio_with_sliding_window` for index `i`
(`utils.py`, lines 123-143): nominal subtitle timing and the context-padded
export window.  Natural subtraction realizes `max(subtitle_start - context, 0)`
exactly, and the `max` with `0` mirrors the source text. -/
def sliding_segment (total_duration chunk_duration_ms context_duration_ms i : ℕ) : Segment :=
  let subtitle_start := i * chunk_duration_ms
  let subtitle_end := min ((i + 1) * chunk_duration_ms) total_duration
  let chunk_start := max (subtitle_start - context_duration_ms) 0
  let chunk_end := min (subtitle_end + context_duration_ms) total_duration
  { subtitle_start := subtitle_start, subtitle_end := subtitle_end,
    chunk_start := chunk_start, chunk_end := chunk_end }

/-- Embedding of `split_audio_with_sliding_window` (`utils.py`, lines 94-148):
`num_chunks` segments, produced in index order. -/
def split_audio_with_sliding_window
    (total_duration chunk_duration_ms context_duration_ms : ℕ) : List Segment :=
  (List.range (num_chunks total_duration chunk_duration_ms)).map
    (sliding_segment total_duration chunk_duration_ms context_duration_ms)

/-- Modelled from the spec: `split_audio_on_silence` is imported from
`utils` by `main.py` but its body is absent from the sources, so the
per-chunk emission rule is taken from the specification (§4.2).  A natural
chunk of duration `d` at clock `currentTime` emits one segment
`(currentTime, currentTime + d)` when `d <= max_chunk_duration_ms`, and
otherwise is split into `k = floor(d / max_chunk_duration_ms) + 1` equal
sub-chunks of duration `d / k` each, offset from `currentTime`. -/
def silence_chunk_segments (max_chunk_duration_ms : ℕ) (currentTime : ℚ) (d : ℕ) :
    List (ℚ × ℚ) :=
  if d ≤ max_chunk_duration_ms then
    [(currentTime, currentTime + (d : ℚ))]
  else
    let k := d / max_chunk_duration_ms + 1
    (List.range k).map fun j =>
      (currentTime + (j : ℚ) * ((d : ℚ) / (k : ℚ)),
       currentTime + ((j : ℚ) + 1) * ((d : ℚ) / (k : ℚ)))

/-- Modelled from the spec: one step of the running clock of
`split_audio_on_silence` (§4.2).  After a natural chunk of duration `d` the
clock unconditionally advances by `d + keep_silence_ms`. -/
def silence_fold_step (max_chunk_duration_ms keep_silence_ms : ℕ)
    (acc : ℚ × List (ℚ × ℚ)) (d : ℕ) : ℚ × List (ℚ × ℚ) :=
  (acc.1 + (d : ℚ) + (keep_silence_ms : ℚ),
   acc.2 ++ silence_chunk_segments max_chunk_duration_ms acc.1 d)

/-- Modelled from the spec: `split_audio_on_silence` (§4.2), applied to the
durations of the natural chunks returned by the external silence detector.
Threads the running clock `currentTime` from `0` over the chunks in order
and concatenates the emitted segments. -/
def split_audio_on_silence (max_chunk_duration_ms keep_silence_ms : ℕ)
    (chunk_durations : List ℕ) : List (ℚ × ℚ) :=
  (chunk_durations.foldl (silence_fold_step max_chunk_duration_ms keep_silence_ms)
    ((0 : ℚ), ([] : List (ℚ × ℚ)))).2

/-- Per-chunk recursive description of the silence-based timeline: chunk `i`
is emitted at clock `t + sum of (d_j + keep_silence_ms) over j < i`. -/
def silence_timeline (max_chunk_duration_ms keep_silence_ms : ℕ) (t : ℚ) :
    List ℕ → List (ℚ × ℚ)
  | [] => []
  | d :: ds =>
      silence_chunk_segments max_chunk_duration_ms t d ++
        silence_timeline max_chunk_duration_ms keep_silence_ms
          (t + (d : ℚ) + (keep_silence_ms : ℚ)) ds

/-- Characters Python's `str.split()` and `str.strip()` treat as whitespace
(ASCII part, which is all this pipeline produces). -/
def pyIsSpace (c : Char) : Bool :=
  c == ' ' || c == '\t' || c == '\n' || c == '\r' || c == '\x0b' || c == '\x0c'

/-- Embedding of `text.replace('\n', ' ')` (`utils.py`, line 263). -/
def pyReplaceNl (s : Str) : Str :=
  s.map fun c => if c = '\n' then ' ' else c

/-- Embedding of `str.strip()`: drop whitespace from both ends. -/
def pyStrip (s : Str) : Str :=
  ((s.dropWhile pyIsSpace).reverse.dropWhile pyIsSpace).reverse

/-- Worker for `str.split()`: scans the string keeping the (reversed) current
word in `cur`, emitting a word at each whitespace run; no empty words. -/
def pySplitAux : Str → Str → List Str
  | [], cur => if cur = [] then [] else [cur.reverse]
  | c :: rest, cur =>
      if pyIsSpace c then
        if cur = [] then pySplitAux rest []
        else cur.reverse :: pySplitAux rest []
      else pySplitAux rest (c :: cur)

/-- Embedding of `text.split()` (no arguments): split on whitespace runs,
discarding empty fragments. -/
def pySplit (s : Str) : List Str :=
  pySplitAux s []

/-- Word list joined with single spaces, as `' '.join` would produce. -/
def joinWords : List Str → Str
  | [] => []
  | [w] => w
  | w :: ws => w ++ ' ' :: joinWords ws

/-- Embedding of `'\n'.join(lines)` (`utils.py`, line 281). -/
def joinLines : List Str → Str
  | [] => []
  | [l] => l
  | l :: ls => l ++ '\n' :: joinLines ls

/-- Loop body of the greedy word wrap in `create_srt_file` (`utils.py`,
lines 269-276).  State: the emitted lines and the current line. -/
def wrapStep (max_chars : ℕ) (acc : List Str × Str) (word : Str) : List Str × Str :=
  if acc.2.length + word.length + 1 ≤ max_chars then
    (acc.1, if acc.2 = [] then word else acc.2 ++ ' ' :: word)
  else
    (acc.1 ++ [acc.2], word)

/-- Greedy word wrap of `create_srt_file` (`utils.py`, lines 266-278): fold
the words through `wrapStep` and flush the final non-empty current line. -/
def wrapWords (max_chars : ℕ) (words : List Str) : List Str :=
  let r := words.foldl (wrapStep max_chars) ([], [])
  if r.2 = [] then r.1 else r.1 ++ [r.2]

def sample_ab : Str :=
  "ab".toList

def sample_hello : Str :=
  "hello".toList

def sample_world : Str :=
  "world".toList

def sample_hello_world : Str :=
  "hello world".toList

/-- Decimal digit string of a natural number, as Python renders integers. -/
def natStr (n : ℕ) : Str :=
  Nat.toDigits 10 n

/-- Embedding of the zero-padding f-string format: left-pad with zeros to at
least `width` digits, unbounded above. -/
def zeroPad (width n : ℕ) : Str :=
  List.replicate (width - (natStr n).length) '0' ++ natStr n

/-- Embedding of `format_timestamp` (`utils.py`, lines 231-244): chained
`divmod` decomposition rendered as `HH:MM:SS,mmm`. -/
def format_timestamp (ms : ℕ) : Str :=
  let seconds := ms / 1000
  let milliseconds := ms % 1000
  let minutes := seconds / 60
  let seconds := seconds % 60
  let hours := minutes / 60
  let minutes := minutes % 60
  zeroPad 2 hours ++ (':' :: (zeroPad 2 minutes ++ (':' :: (zeroPad 2 seconds ++
    (',' :: zeroPad 3 milliseconds)))))

/-- One collected transcript record (`process_chunks_and_collect_transcripts`
output dictionaries): nominal start/end in ms and the transcript text. -/
structure TranscriptEntry where
  start_time : ℕ
  end_time : ℕ
  transcript : Str
  deriving DecidableEq, Repr

def arrow_sep : Str :=
  " --> ".toList

/-- Normalization and greedy wrap applied by `create_srt_file` to one
transcript (`utils.py`, lines 263-281): replace newlines by spaces, strip,
split into words, wrap, and re-join with newlines. -/
def srt_text (max_chars : ℕ) (transcript : Str) : Str :=
  joinLines (wrapWords max_chars (pySplit (pyStrip (pyReplaceNl transcript))))

/-- One SRT cue block as written by `create_srt_file` (`utils.py`, line 284):
index, arrow-separated timestamp range, wrapped text, blank line. -/
def srt_block (max_chars subtitle_number : ℕ) (entry : TranscriptEntry) : Str :=
  natStr subtitle_number ++ ['\n'] ++ format_timestamp entry.start_time ++ arrow_sep ++
    format_timestamp entry.end_time ++ ['\n'] ++ srt_text max_chars entry.transcript ++
    ['\n', '\n']

/-- Embedding of `create_srt_file` (`utils.py`, lines 246-286): fold over the
entries writing one block each, threading the 1-based cue counter. -/
def create_srt_file (max_chars : ℕ) (transcripts : List TranscriptEntry) : Str :=
  (transcripts.foldl
    (fun acc entry => (acc.1 ++ srt_block max_chars acc.2 entry, acc.2 + 1))
    (([] : Str), 1)).1

def ts_zero : Str :=
  "00:00:00,000".toList

def ts_minute : Str :=
  "00:01:01,234".toList

def ts_hour : Str :=
  "01:00:00,000".toList

def ext_mp3 : Str :=
  ".mp3".toList

def ext_wav : Str :=
  ".wav".toList

def ext_mp4 : Str :=
  ".mp4".toList

def ext_txt : Str :=
  ".txt".toList

def mime_mpeg : Str :=
  "audio/mpeg".toList

def mime_wave : Str :=
  "audio/wave".toList

def mime_wav : Str :=
  "audio/wav".toList

def mime_x_wav : Str :=
  "audio/x-wav".toList

def mime_mp4 : Str :=
  "video/mp4".toList

def mime_txt : Str :=
  "text/plain".toList

/-- Lowercased extension of a path, dot included: what
`mimetypes.guess_type` keys its table on.  Empty when the path has no dot. -/
def file_extension (path : Str) : Str :=
  if '.' ∈ path then
    '.' :: ((path.reverse.takeWhile (fun c => c ≠ '.')).reverse.map Char.toLower)
  else []

/-- Model of `mimetypes.guess_type` restricted to the extensions this
pipeline produces or receives (`utils.py`, line 171); every extension outside
the table maps to no type, as `guess_type` returns `(None, None)`. -/
def guess_mime_type (path : Str) : Option Str :=
  let ext := file_extension path
  if ext = ext_mp3 then some mime_mpeg
  else if ext = ext_wav then some mime_x_wav
  else if ext = ext_mp4 then some mime_mp4
  else if ext = ext_txt then some mime_txt
  else none

/-- The allow-list checked by `send_to_sarvam_api` (`utils.py`, line 172). -/
def allowed_audio_mimes : List Str :=
  [mime_mpeg, mime_wave, mime_wav, mime_x_wav]

/-- Outcome of the single HTTP POST of `send_to_sarvam_api`, per the external
transport contract (§6): a transport-level exception, a non-2xx status that
`raise_for_status` turns into an exception, or a 2xx response whose body
either fails to parse (`none`) or parses to a JSON object represented by its
optional `transcript` field. -/
inductive HttpResult where
  | transportError : HttpResult
  | httpError (status : ℕ) : HttpResult
  | ok (body : Option (Option Str)) : HttpResult
  deriving DecidableEq, Repr

/-- Embedding of `send_to_sarvam_api` (`utils.py`, lines 151-199).  First
component: the returned value (`none` is Python's `None`, `some body` the
parsed response dictionary seen through its optional `transcript` field).
Second component: how many HTTP requests were performed (`0` on local MIME
rejection, otherwise exactly `1`; the source contains a single
`requests.post` and no retry loop). -/
def send_to_sarvam_api (audio_file_path : Str) (http : HttpResult) :
    Option (Option Str) × ℕ :=
  if guess_mime_type audio_file_path ∈ allowed_audio_mimes.map some then
    match http with
    | .transportError => (none, 1)
    | .httpError _ => (none, 1)
    | .ok none => (none, 1)
    | .ok (some result) => (some result, 1)
  else (none, 0)

def unintelligible : Str :=
  "[Unintelligible]".toList

/-- Embedding of `process_chunks_and_collect_transcripts` (`utils.py`, lines
201-229), parametrized over the client's behaviour: for each chunk
`(path, start_ms, end_ms)` it consults the client once; a response carrying a
transcript yields a real entry, anything else (failure sentinel or a response
without the `transcript` field) yields the placeholder entry. -/
def collect_one (client : Str → Option (Option Str)) (chunk : Str × ℕ × ℕ) :
    TranscriptEntry :=
  match client chunk.1 with
  | some (some transcript) =>
      { start_time := chunk.2.1, end_time := chunk.2.2, transcript := transcript }
  | _ =>
      { start_time := chunk.2.1, end_time := chunk.2.2, transcript := unintelligible }

def process_chunks_and_collect_transcripts
    (client : Str → Option (Option Str)) (chunks : List (Str × ℕ × ℕ)) :
    List TranscriptEntry :=
  chunks.map (collect_one client)

def sample_mp3_path : Str :=
  "chunk_1.mp3".toList

def sample_txt_path : Str :=
  "notes.txt".toList

/-! ## Lemmas and theorems -/

lemma sliding_window_length (T C ctx : ℕ) :
    (split_audio_with_sliding_window T C ctx).length = num_chunks T C := by
  simp [split_audio_with_sliding_window]

lemma sliding_window_get (T C ctx i : ℕ)
    (hi : i < (split_audio_with_sliding_window T C ctx).length) :
    (split_audio_with_sliding_window T C ctx).get ⟨i, hi⟩ = sliding_segment T C ctx i := by
  simp [split_audio_with_sliding_window]

lemma lt_num_chunks_iff (T C i : ℕ) (hC : 0 < C) :
    i < num_chunks T C ↔ i * C < T := by
  have h1 : i < num_chunks T C ↔ (i + 1) * C ≤ T + C - 1 := by
    unfold num_chunks
    rw [Nat.lt_iff_add_one_le, Nat.le_div_iff_mul_le hC]
  rw [h1, Nat.add_mul, Nat.one_mul]
  generalize i * C = x
  omega

lemma le_num_chunks_mul (T C : ℕ) (hC : 0 < C) :
    T ≤ num_chunks T C * C := by
  by_contra h
  push_neg at h
  exact lt_irrefl _ ((lt_num_chunks_iff T C (num_chunks T C) hC).mpr h)

lemma div_lt_num_chunks (T C t : ℕ) (hC : 0 < C) (ht : t < T) :
    t / C < num_chunks T C := by
  rw [lt_num_chunks_iff T C _ hC]
  exact lt_of_le_of_lt (Nat.div_mul_le_self t C) ht

/-- Claim C1.  For every total duration `T` and positive chunk size `C`, the fixed
sliding-window segmenter produces exactly `ceil(T/C)` segments; segment `i`
has nominal interval `[i*C, min((i+1)*C, T))`; consecutive nominal intervals
are adjacent, the first start is `0`, the last end is `T`, and every instant
`t < T` lies in exactly one nominal interval, namely that of segment `t / C`. -/
theorem sliding_window_tiles (T C ctx : ℕ) (hC : 0 < C) :
    (split_audio_with_sliding_window T C ctx).length = num_chunks T C ∧
    (∀ i (hi : i < (split_audio_with_sliding_window T C ctx).length),
        ((split_audio_with_sliding_window T C ctx).get ⟨i, hi⟩).subtitle_start = i * C ∧
        ((split_audio_with_sliding_window T C ctx).get ⟨i, hi⟩).subtitle_end
          = min ((i + 1) * C) T) ∧
    (∀ i (hi : i + 1 < (split_audio_with_sliding_window T C ctx).length),
        ((split_audio_with_sliding_window T C ctx).get ⟨i + 1, hi⟩).subtitle_start
          = ((split_audio_with_sliding_window T C ctx).get
                ⟨i, Nat.lt_of_succ_lt hi⟩).subtitle_end) ∧
    (∀ h0 : 0 < (split_audio_with_sliding_window T C ctx).length,
        ((split_audio_with_sliding_window T C ctx).get ⟨0, h0⟩).subtitle_start = 0 ∧
        ((split_audio_with_sliding_window T C ctx).get
            ⟨(split_audio_with_sliding_window T C ctx).length - 1, by omega⟩).subtitle_end
          = T) ∧
    (∀ t, t < T →
        t / C < (split_audio_with_sliding_window T C ctx).length ∧
        (∀ i (hi : i < (split_audio_with_sliding_window T C ctx).length),
          (((split_audio_with_sliding_window T C ctx).get ⟨i, hi⟩).subtitle_start ≤ t ∧
            t < ((split_audio_with_sliding_window T C ctx).get ⟨i, hi⟩).subtitle_end) ↔
          i = t / C)) := by
  refine ⟨sliding_window_length T C ctx, ?_, ?_, ?_, ?_⟩
  · intro i hi
    rw [sliding_window_get]
    exact ⟨rfl, rfl⟩
  · intro i hi
    rw [sliding_window_get, sliding_window_get]
    have hiN : i + 1 < num_chunks T C := by
      rwa [sliding_window_length] at hi
    have h : (i + 1) * C < T := (lt_num_chunks_iff T C (i + 1) hC).mp hiN
    simp [sliding_segment, Nat.min_eq_left (le_of_lt h)]
  · intro h0
    rw [sliding_window_get, sliding_window_get]
    have hN : 0 < num_chunks T C := by
      rwa [sliding_window_length] at h0
    constructor
    · simp [sliding_segment]
    · rw [sliding_window_length]
      have hl : num_chunks T C - 1 + 1 = num_chunks T C := by omega
      have hT : T ≤ (num_chunks T C - 1 + 1) * C := by
        rw [hl]; exact le_num_chunks_mul T C hC
      simp [sliding_segment, Nat.min_eq_right hT]
  · intro t ht
    have hdiv : t / C < (split_audio_with_sliding_window T C ctx).length := by
      rw [sliding_window_length]; exact div_lt_num_chunks T C t hC ht
    refine ⟨hdiv, ?_⟩
    intro i hi
    rw [sliding_window_get]
    simp only [sliding_segment]
    constructor
    · rintro ⟨hle, hlt⟩
      have hlt' : t < (i + 1) * C := lt_of_lt_of_le hlt (min_le_left _ _)
      have h1 : i ≤ t / C := (Nat.le_div_iff_mul_le hC).mpr hle
      have h2 : t / C < i + 1 := by
        rw [Nat.div_lt_iff_lt_mul hC]
        exact hlt'
      omega
    · rintro rfl
      refine ⟨Nat.div_mul_le_self t C, ?_⟩
      have hmod := Nat.div_add_mod t C
      have hmlt := Nat.mod_lt t hC
      have h3 : t < (t / C + 1) * C := by
        have he : (t / C + 1) * C = C * (t / C) + C := by ring
        omega
      exact lt_min h3 ht

theorem sliding_window_tiles_witness :
    0 < 7000 ∧ (split_audio_with_sliding_window 16000 7000 2000).length = num_chunks 16000 7000 :=
  ⟨by decide, (sliding_window_tiles 16000 7000 2000 (by decide)).1⟩

/-- Claim C2.  Every segment's export window satisfies `chunk_start >= 0`,
`chunk_end <= T`, and is at least as long as the nominal interval; and at
`T = 16000`, `chunk = 7000`, `ctx = 2000` the segmenter yields exactly the
three segments with nominal intervals `[0,7000) [7000,14000) [14000,16000)`
and export windows `[0,9000) [5000,16000) [12000,16000)`. -/
theorem sliding_window_context_bounds (T C ctx : ℕ) :
    (∀ i (hi : i < (split_audio_with_sliding_window T C ctx).length),
        0 ≤ ((split_audio_with_sliding_window T C ctx).get ⟨i, hi⟩).chunk_start ∧
        ((split_audio_with_sliding_window T C ctx).get ⟨i, hi⟩).chunk_end ≤ T ∧
        ((split_audio_with_sliding_window T C ctx).get ⟨i, hi⟩).subtitle_end -
            ((split_audio_with_sliding_window T C ctx).get ⟨i, hi⟩).subtitle_start ≤
          ((split_audio_with_sliding_window T C ctx).get ⟨i, hi⟩).chunk_end -
            ((split_audio_with_sliding_window T C ctx).get ⟨i, hi⟩).chunk_start) ∧
    split_audio_with_sliding_window 16000 7000 2000 =
      [⟨0, 7000, 0, 9000⟩, ⟨7000, 14000, 5000, 16000⟩, ⟨14000, 16000, 12000, 16000⟩] := by
  constructor
  · intro i hi
    rw [sliding_window_get]
    simp only [sliding_segment]
    refine ⟨Nat.zero_le _, min_le_right _ _, ?_⟩
    have h1 : max (i * C - ctx) 0 ≤ i * C := by
      rw [Nat.max_eq_left (Nat.zero_le _)]
      exact Nat.sub_le _ _
    have h2 : min ((i + 1) * C) T ≤ min (min ((i + 1) * C) T + ctx) T :=
      le_min (Nat.le_add_right _ _) (min_le_right _ _)
    omega
  · decide

theorem sliding_window_context_bounds_witness :
    ((split_audio_with_sliding_window 16000 7000 2000).get ⟨1, by decide⟩).chunk_end ≤ 16000 :=
  ((sliding_window_context_bounds 16000 7000 2000).1 1 (by decide)).2.1

lemma silence_foldl_eq (m k : ℕ) (ds : List ℕ) : ∀ (t : ℚ) (out : List (ℚ × ℚ)),
    ds.foldl (silence_fold_step m k) (t, out) =
      (t + (ds.map fun d : ℕ => (d : ℚ) + (k : ℚ)).sum,
       out ++ silence_timeline m k t ds) := by
  induction ds with
  | nil => intro t out; simp [silence_timeline]
  | cons d ds ih =>
      intro t out
      rw [List.foldl_cons]
      show ds.foldl (silence_fold_step m k)
          (t + (d : ℚ) + (k : ℚ), out ++ silence_chunk_segments m t d) = _
      rw [ih]
      refine Prod.ext ?_ ?_
      · simp only [List.map_cons, List.sum_cons]
        ring
      · simp [silence_timeline, List.append_assoc]

/-- Claim C3.  The silence-based segmenter threads a running clock from `0`: its
output is exactly the per-chunk timeline in which a chunk of duration
`d <= max` emits the single segment `(t, t + d)`, a longer chunk is split
into `floor(d/max) + 1` equal sub-chunks offset from `t`, and after every
natural chunk the clock advances by exactly `d + keep_silence_ms`; the final
clock is the sum of `d + keep_silence_ms` over all chunks. -/
theorem silence_segmenter_running_clock (m k : ℕ) (ds : List ℕ) :
    split_audio_on_silence m k ds = silence_timeline m k 0 ds ∧
    (ds.foldl (silence_fold_step m k) ((0 : ℚ), [])).1 =
      (ds.map fun d : ℕ => (d : ℚ) + (k : ℚ)).sum ∧
    (∀ (t : ℚ) (d : ℕ), d ≤ m →
        silence_chunk_segments m t d = [(t, t + (d : ℚ))]) ∧
    (∀ (t : ℚ) (d : ℕ), m < d →
        silence_chunk_segments m t d =
          (List.range (d / m + 1)).map fun j =>
            (t + (j : ℚ) * ((d : ℚ) / ((d / m + 1 : ℕ) : ℚ)),
             t + ((j : ℚ) + 1) * ((d : ℚ) / ((d / m + 1 : ℕ) : ℚ)))) := by
  refine ⟨?_, ?_, ?_, ?_⟩
  · unfold split_audio_on_silence
    rw [silence_foldl_eq]
    simp
  · rw [silence_foldl_eq]
    simp
  · intro t d hd
    simp [silence_chunk_segments, hd]
  · intro t d hd
    simp [silence_chunk_segments, Nat.not_le.mpr hd]

theorem silence_segmenter_running_clock_witness :
    (3000 : ℕ) ≤ 7000 ∧
      silence_chunk_segments 7000 (0 : ℚ) 3000 = [((0 : ℚ), (0 : ℚ) + (3000 : ℚ))] :=
  ⟨by decide, (silence_segmenter_running_clock 7000 500 []).2.2.1 0 3000 (by decide)⟩

lemma pySplitAux_nil (cur : Str) :
    pySplitAux [] cur = if cur = [] then [] else [cur.reverse] := rfl

lemma pySplitAux_cons (c : Char) (rest cur : Str) :
    pySplitAux (c :: rest) cur =
      if pyIsSpace c then
        if cur = [] then pySplitAux rest [] else cur.reverse :: pySplitAux rest []
      else pySplitAux rest (c :: cur) := rfl

lemma pySplitAux_words_good : ∀ (s cur : Str),
    (∀ c ∈ cur, pyIsSpace c = false) →
    ∀ w ∈ pySplitAux s cur, w ≠ [] ∧ ∀ c ∈ w, pyIsSpace c = false
  | [], cur, hcur => by
      rw [pySplitAux_nil]
      by_cases h : cur = []
      · simp [h]
      · rw [if_neg h]
        intro w hw
        rw [List.mem_singleton] at hw
        subst hw
        refine ⟨by simpa using h, ?_⟩
        intro c hc
        exact hcur c (List.mem_reverse.mp hc)
  | c :: rest, cur, hcur => by
      rw [pySplitAux_cons]
      by_cases hsp : pyIsSpace c = true
      · rw [if_pos hsp]
        by_cases h : cur = []
        · rw [if_pos h]
          exact pySplitAux_words_good rest [] (by simp)
        · rw [if_neg h]
          intro w hw
          rcases List.mem_cons.mp hw with hw | hw
          · subst hw
            refine ⟨by simpa using h, ?_⟩
            intro d hd
            exact hcur d (List.mem_reverse.mp hd)
          · exact pySplitAux_words_good rest [] (by simp) w hw
      · rw [if_neg hsp]
        refine pySplitAux_words_good rest (c :: cur) ?_
        intro d hd
        rcases List.mem_cons.mp hd with hd | hd
        · subst hd; simpa using hsp
        · exact hcur d hd

lemma pySplit_words_good (s : Str) :
    ∀ w ∈ pySplit s, w ≠ [] ∧ ∀ c ∈ w, pyIsSpace c = false :=
  pySplitAux_words_good s [] (by simp)

lemma pySplitAux_no_space : ∀ (s cur : Str),
    (∀ c ∈ s, pyIsSpace c = false) →
    pySplitAux s cur = if cur.reverse ++ s = [] then [] else [cur.reverse ++ s]
  | [], cur, _ => by
      rw [pySplitAux_nil]
      by_cases h : cur = []
      · simp [h]
      · have h' : cur.reverse ≠ [] := by simpa using h
        simp [h, h']
  | c :: rest, cur, hs => by
      rw [pySplitAux_cons]
      have hc : pyIsSpace c = false := hs c (List.mem_cons_self c rest)
      rw [if_neg (by simp [hc])]
      rw [pySplitAux_no_space rest (c :: cur) (fun d hd => hs d (List.mem_cons_of_mem c hd))]
      have he : (c :: cur).reverse ++ rest = cur.reverse ++ c :: rest := by
        simp
      rw [he]

lemma pySplit_no_space (w : Str) (hw : w ≠ []) (h : ∀ c ∈ w, pyIsSpace c = false) :
    pySplit w = [w] := by
  unfold pySplit
  rw [pySplitAux_no_space w [] h]
  simp [hw]

lemma pySplitAux_append_space (c : Char) (hc : pyIsSpace c = true) :
    ∀ (a cur b : Str),
      pySplitAux (a ++ c :: b) cur = pySplitAux a cur ++ pySplitAux b []
  | [], cur, b => by
      rw [List.nil_append, pySplitAux_cons, if_pos hc, pySplitAux_nil]
      by_cases h : cur = []
      · rw [if_pos h, if_pos h, List.nil_append]
      · rw [if_neg h, if_neg h, List.cons_append, List.nil_append]
  | x :: a', cur, b => by
      rw [List.cons_append, pySplitAux_cons, pySplitAux_cons]
      by_cases hx : pyIsSpace x = true
      · rw [if_pos hx, if_pos hx]
        by_cases h : cur = []
        · rw [if_pos h, if_pos h]
          exact pySplitAux_append_space c hc a' [] b
        · rw [if_neg h, if_neg h, List.cons_append]
          rw [pySplitAux_append_space c hc a' [] b]
      · rw [if_neg hx, if_neg hx]
        exact pySplitAux_append_space c hc a' (x :: cur) b

lemma pySplit_append_space (c : Char) (hc : pyIsSpace c = true) (a b : Str) :
    pySplit (a ++ c :: b) = pySplit a ++ pySplit b :=
  pySplitAux_append_space c hc a [] b

lemma joinWords_cons (w : Str) (ws : List Str) (h : ws ≠ []) :
    joinWords (w :: ws) = w ++ ' ' :: joinWords ws := by
  cases ws with
  | nil => exact absurd rfl h
  | cons w' ws' => rfl

lemma joinLines_cons (l : Str) (ls : List Str) (h : ls ≠ []) :
    joinLines (l :: ls) = l ++ '\n' :: joinLines ls := by
  cases ls with
  | nil => exact absurd rfl h
  | cons l' ls' => rfl

lemma pySplit_joinWords : ∀ (ws : List Str),
    (∀ w ∈ ws, w ≠ [] ∧ ∀ c ∈ w, pyIsSpace c = false) →
    pySplit (joinWords ws) = ws
  | [], _ => rfl
  | [w], h => by
      have hw := h w (List.mem_singleton.mpr rfl)
      simpa [joinWords] using pySplit_no_space w hw.1 hw.2
  | w :: w' :: ws', h => by
      rw [joinWords_cons w (w' :: ws') (by simp)]
      rw [pySplit_append_space ' ' (by decide) w (joinWords (w' :: ws'))]
      have hw := h w (List.mem_cons_self _ _)
      rw [pySplit_no_space w hw.1 hw.2]
      rw [pySplit_joinWords (w' :: ws') (fun u hu => h u (List.mem_cons_of_mem w hu))]
      rfl

lemma pySplit_joinLines : ∀ (ls : List Str),
    pySplit (joinLines ls) = (ls.map pySplit).flatten
  | [] => rfl
  | [l] => by simp [joinLines]
  | l :: l' :: ls' => by
      rw [joinLines_cons l (l' :: ls') (by simp)]
      rw [pySplit_append_space '\n' (by decide) l (joinLines (l' :: ls'))]
      rw [pySplit_joinLines (l' :: ls')]
      simp

lemma wrap_fold_words (max_chars : ℕ) : ∀ (ws lines : List Str) (cur : Str),
    (∀ w ∈ ws, w ≠ [] ∧ ∀ c ∈ w, pyIsSpace c = false) →
    ((ws.foldl (wrapStep max_chars) (lines, cur)).1.map pySplit).flatten ++
        pySplit (ws.foldl (wrapStep max_chars) (lines, cur)).2
      = (lines.map pySplit).flatten ++ pySplit cur ++ ws
  | [], lines, cur, _ => by simp
  | w :: ws', lines, cur, h => by
      have hw := h w (List.mem_cons_self _ _)
      have h' : ∀ u ∈ ws', u ≠ [] ∧ ∀ c ∈ u, pyIsSpace c = false :=
        fun u hu => h u (List.mem_cons_of_mem w hu)
      rw [List.foldl_cons]
      simp only [wrapStep]
      by_cases hcond : cur.length + w.length + 1 ≤ max_chars
      · rw [if_pos hcond]
        by_cases hc : cur = []
        · rw [if_pos hc, wrap_fold_words max_chars ws' lines w h']
          subst hc
          rw [pySplit_no_space w hw.1 hw.2]
          simp [pySplit, pySplitAux_nil]
        · rw [if_neg hc, wrap_fold_words max_chars ws' lines (cur ++ ' ' :: w) h']
          rw [pySplit_append_space ' ' (by decide) cur w]
          rw [pySplit_no_space w hw.1 hw.2]
          simp
      · rw [if_neg hcond, wrap_fold_words max_chars ws' (lines ++ [cur]) w h']
        rw [pySplit_no_space w hw.1 hw.2]
        simp

lemma wrapWords_flatten (max_chars : ℕ) (ws : List Str)
    (h : ∀ w ∈ ws, w ≠ [] ∧ ∀ c ∈ w, pyIsSpace c = false) :
    ((wrapWords max_chars ws).map pySplit).flatten = ws := by
  unfold wrapWords
  have hfold := wrap_fold_words max_chars ws [] [] h
  simp only [List.map_nil, List.flatten_nil, List.nil_append] at hfold
  rw [show pySplit [] = [] from rfl, List.nil_append] at hfold
  by_cases hr : (ws.foldl (wrapStep max_chars) ([], [])).2 = []
  · rw [if_pos hr]
    rw [hr] at hfold
    simpa [pySplit, pySplitAux_nil] using hfold
  · rw [if_neg hr]
    simpa using hfold

lemma joinWords_length_cons (w : Str) (ws : List Str) (h : ws ≠ []) :
    (joinWords (w :: ws)).length = w.length + 1 + (joinWords ws).length := by
  rw [joinWords_cons w ws h]
  simp [List.length_append]
  omega

lemma wrap_fold_fits (max_chars : ℕ) : ∀ (ws : List Str) (cur : Str) (lines : List Str),
    cur ≠ [] → ws ≠ [] → cur.length + 1 + (joinWords ws).length ≤ max_chars →
    ws.foldl (wrapStep max_chars) (lines, cur) = (lines, cur ++ ' ' :: joinWords ws)
  | [], _, _, _, hws, _ => absurd rfl hws
  | w :: ws', cur, lines, hcur, _, hlen => by
      rw [List.foldl_cons]
      have hstep : wrapStep max_chars (lines, cur) w = (lines, cur ++ ' ' :: w) := by
        have hcond : cur.length + w.length + 1 ≤ max_chars := by
          cases ws' with
          | nil => simp only [joinWords] at hlen; omega
          | cons w2 ws'' =>
              rw [joinWords_length_cons w (w2 :: ws'') (by simp)] at hlen
              omega
        simp [wrapStep, hcond, hcur]
      rw [hstep]
      cases ws' with
      | nil => simp [joinWords]
      | cons w2 ws'' =>
          rw [wrap_fold_fits max_chars (w2 :: ws'') (cur ++ ' ' :: w) lines (by simp) (by simp)
            (by
              rw [joinWords_length_cons w (w2 :: ws'') (by simp)] at hlen
              simp [List.length_append]
              omega)]
          rw [joinWords_cons w (w2 :: ws'') (by simp)]
          simp

lemma joinWords_pySplitAux_length : ∀ (s cur : Str),
    (joinWords (pySplitAux s cur)).length ≤ cur.length + s.length
  | [], cur => by
      rw [pySplitAux_nil]
      by_cases h : cur = []
      · simp [h, joinWords]
      · simp [h, joinWords]
  | c :: rest, cur => by
      rw [pySplitAux_cons]
      by_cases hsp : pyIsSpace c = true
      · rw [if_pos hsp]
        by_cases h : cur = []
        · rw [if_pos h]
          have := joinWords_pySplitAux_length rest []
          simp only [List.length_nil, Nat.zero_add] at this
          simp only [List.length_cons]
          omega
        · rw [if_neg h]
          have hr := joinWords_pySplitAux_length rest []
          simp only [List.length_nil, Nat.zero_add] at hr
          cases he : pySplitAux rest [] with
          | nil => simp [joinWords, List.length_cons]
          | cons l ls =>
              rw [joinWords_length_cons _ _ (by simp)]
              rw [he] at hr
              simp only [List.length_reverse, List.length_cons]
              omega
      · rw [if_neg hsp]
        have := joinWords_pySplitAux_length rest (c :: cur)
        simp only [List.length_cons] at this ⊢
        omega

lemma joinWords_pySplit_length (s : Str) : (joinWords (pySplit s)).length ≤ s.length := by
  have := joinWords_pySplitAux_length s []
  simpa [pySplit] using this

lemma wrap_fold_mem (max_chars : ℕ) (ws₀ : List Str) : ∀ (ws lines : List Str) (cur : Str),
    (∀ w ∈ ws, w ∈ ws₀) →
    (∀ l ∈ lines, max_chars < l.length → l ∈ ws₀) →
    (max_chars < cur.length → cur ∈ ws₀) →
    (∀ l ∈ (ws.foldl (wrapStep max_chars) (lines, cur)).1,
        max_chars < l.length → l ∈ ws₀) ∧
    (max_chars < (ws.foldl (wrapStep max_chars) (lines, cur)).2.length →
        (ws.foldl (wrapStep max_chars) (lines, cur)).2 ∈ ws₀)
  | [], lines, cur, _, hl, hc => ⟨hl, hc⟩
  | w :: ws', lines, cur, hws, hl, hc => by
      have hw0 : w ∈ ws₀ := hws w (List.mem_cons_self _ _)
      have hws' : ∀ u ∈ ws', u ∈ ws₀ := fun u hu => hws u (List.mem_cons_of_mem w hu)
      rw [List.foldl_cons]
      simp only [wrapStep]
      by_cases hcond : cur.length + w.length + 1 ≤ max_chars
      · rw [if_pos hcond]
        by_cases hcur : cur = []
        · rw [if_pos hcur]
          exact wrap_fold_mem max_chars ws₀ ws' lines w hws' hl (fun _ => hw0)
        · rw [if_neg hcur]
          refine wrap_fold_mem max_chars ws₀ ws' lines (cur ++ ' ' :: w) hws' hl ?_
          intro hlt
          exfalso
          simp only [List.length_append, List.length_cons] at hlt
          omega
      · rw [if_neg hcond]
        refine wrap_fold_mem max_chars ws₀ ws' (lines ++ [cur]) w hws' ?_ (fun _ => hw0)
        intro l hli hlen
        rcases List.mem_append.mp hli with hli | hli
        · exact hl l hli hlen
        · rw [List.mem_singleton] at hli
          subst hli
          exact hc hlen

lemma wrapWords_mem (max_chars : ℕ) (ws : List Str) :
    ∀ l ∈ wrapWords max_chars ws, max_chars < l.length → l ∈ ws := by
  have h := wrap_fold_mem max_chars ws ws [] [] (fun w hw => hw)
    (by intro l hl; exact absurd hl (List.not_mem_nil l))
    (by intro hlt; simp at hlt)
  unfold wrapWords
  by_cases hr : (ws.foldl (wrapStep max_chars) ([], [])).2 = []
  · rw [if_pos hr]
    exact h.1
  · rw [if_neg hr]
    intro l hli hlen
    rcases List.mem_append.mp hli with hli | hli
    · exact h.1 l hli hlen
    · rw [List.mem_singleton] at hli
      subst hli
      exact h.2 hlen

/-- Claim C5 counterexample.  The claim says a normalized text of total length
`L <= maxLineChars` wraps to exactly one line, but a text that is a single
word of length exactly `maxLineChars` wraps to two lines (an empty line is
flushed before the word): here the two-character text with `maxLineChars = 2`. -/
theorem wrap_width_counterexample :
    sample_ab.length ≤ 2 ∧ (wrapWords 2 (pySplit sample_ab)).length ≠ 1 := by
  decide

/-- Claim C5, amended.  With `L` the normalized text's length and the words its
whitespace split: the space-joined words are never longer than `L`; no words
wrap to no lines; at least two words whose joined length fits, or a single
word with `length + 1 <= maxLineChars`, wrap to exactly one line; a single
word with `maxLineChars < length + 1` wraps to an empty line followed by the
word alone (so under `L <= maxLineChars` the sole exception to the one-line
claim is a single word of length exactly `maxLineChars`); and any emitted
line longer than `maxLineChars` is a single input word, alone, untruncated. -/
theorem wrap_width_amended (max_chars : ℕ) (text : Str) :
    (joinWords (pySplit text)).length ≤ text.length ∧
    (pySplit text = [] → wrapWords max_chars (pySplit text) = []) ∧
    (∀ w rest, pySplit text = w :: rest → rest ≠ [] →
        (joinWords (pySplit text)).length ≤ max_chars →
        wrapWords max_chars (pySplit text) = [joinWords (pySplit text)]) ∧
    (∀ w, pySplit text = [w] → w.length + 1 ≤ max_chars →
        wrapWords max_chars (pySplit text) = [w]) ∧
    (∀ w, pySplit text = [w] → max_chars < w.length + 1 →
        wrapWords max_chars (pySplit text) = [[], w]) ∧
    (∀ l ∈ wrapWords max_chars (pySplit text),
        max_chars < l.length → l ∈ pySplit text) := by
  refine ⟨joinWords_pySplit_length text, ?_, ?_, ?_, ?_, wrapWords_mem max_chars (pySplit text)⟩
  · intro h
    rw [h]
    rfl
  · intro w rest hws hrest hfit
    have hw := pySplit_words_good text w (hws ▸ List.mem_cons_self _ _)
    rw [hws] at hfit ⊢
    rw [joinWords_length_cons w rest hrest] at hfit
    unfold wrapWords
    rw [List.foldl_cons]
    have hstep : wrapStep max_chars ([], []) w = ([], w) := by
      have hcond : w.length + 1 ≤ max_chars := by omega
      simp [wrapStep, hcond]
    rw [hstep]
    rw [wrap_fold_fits max_chars rest w [] hw.1 hrest (by omega)]
    have hne : w ++ ' ' :: joinWords rest ≠ [] := by simp
    rw [if_neg hne]
    rw [joinWords_cons w rest hrest]
    rfl
  · intro w hws hfit
    have hw := pySplit_words_good text w (hws ▸ List.mem_cons_self _ _)
    rw [hws]
    unfold wrapWords
    rw [List.foldl_cons]
    have hstep : wrapStep max_chars ([], []) w = ([], w) := by
      have hcond : w.length + 1 ≤ max_chars := by omega
      simp [wrapStep, hcond]
    rw [hstep, List.foldl_nil, if_neg hw.1]
    rfl
  · intro w hws hbig
    have hw := pySplit_words_good text w (hws ▸ List.mem_cons_self _ _)
    rw [hws]
    unfold wrapWords
    rw [List.foldl_cons]
    have hstep : wrapStep max_chars ([], []) w = ([[]], w) := by
      have hcond : ¬(w.length + 1 ≤ max_chars) := by omega
      simp [wrapStep, hcond]
    rw [hstep, List.foldl_nil, if_neg hw.1]
    rfl

theorem wrap_width_amended_witness :
    pySplit sample_hello_world = sample_hello :: [sample_world] ∧
      wrapWords 11 (pySplit sample_hello_world) = [joinWords (pySplit sample_hello_world)] :=
  ⟨by decide,
    (wrap_width_amended 11 sample_hello_world).2.2.1 sample_hello [sample_world]
      (by decide) (by decide) (by decide)⟩

/-- Claim C10.  The wrap performed by the subtitle assembler preserves the word
sequence: splitting the wrapped multi-line text on whitespace returns exactly
the words of the normalized input (newlines replaced by spaces, trimmed). -/
theorem wrap_preserves_word_sequence (max_chars : ℕ) (text : Str) :
    pySplit (srt_text max_chars text) = pySplit (pyStrip (pyReplaceNl text)) := by
  unfold srt_text
  rw [pySplit_joinLines]
  exact wrapWords_flatten max_chars _ (pySplit_words_good _)

/-- Claim C7.  `format_timestamp` decomposes a non-negative millisecond count by
integer division into hours, minutes, seconds and milliseconds, zero-padding
each component (hours to at least two digits, unbounded above), and agrees
with the three known values `0`, `61234` and `3600000`. -/
theorem format_timestamp_decomposition :
    (∀ ms : ℕ,
        format_timestamp ms =
          zeroPad 2 (ms / 3600000) ++ (':' :: (zeroPad 2 (ms / 60000 % 60) ++
            (':' :: (zeroPad 2 (ms / 1000 % 60) ++ (',' :: zeroPad 3 (ms % 1000))))))) ∧
    (∀ width n : ℕ, (zeroPad width n).length = max width (natStr n).length) ∧
    format_timestamp 0 = ts_zero ∧
    format_timestamp 61234 = ts_minute ∧
    format_timestamp 3600000 = ts_hour := by
  refine ⟨?_, ?_, by decide, by decide, by decide⟩
  · intro ms
    have h1 : ms / 1000 / 60 = ms / 60000 := by
      rw [Nat.div_div_eq_div_mul]
    have h2 : ms / 60000 / 60 = ms / 3600000 := by
      rw [Nat.div_div_eq_div_mul]
    simp only [format_timestamp, h1, h2]
  · intro width n
    simp [zeroPad, List.length_append, List.length_replicate]
    omega

lemma create_srt_foldl (max_chars : ℕ) : ∀ (ts : List TranscriptEntry) (acc : Str) (k : ℕ),
    (ts.foldl (fun acc entry => (acc.1 ++ srt_block max_chars acc.2 entry, acc.2 + 1))
        (acc, k)).1
      = acc ++ ((ts.enumFrom k).map fun p => srt_block max_chars p.1 p.2).flatten
  | [], acc, k => by simp
  | e :: ts', acc, k => by
      rw [List.foldl_cons]
      rw [create_srt_foldl max_chars ts' (acc ++ srt_block max_chars k e) (k + 1)]
      simp [List.enumFrom, List.append_assoc]

/-- Claim C9.  The SRT output is the concatenation, in input order, of the cue
blocks `index, start --> end, wrapped text, blank line`, with indices taken
from the consecutive enumeration starting at 1 (so index `i+1` at position
`i`). -/
theorem srt_serialization (max_chars : ℕ) (transcripts : List TranscriptEntry) :
    create_srt_file max_chars transcripts =
      ((transcripts.enumFrom 1).map fun p => srt_block max_chars p.1 p.2).flatten ∧
    (transcripts.enumFrom 1).map Prod.fst = List.range' 1 transcripts.length := by
  constructor
  · unfold create_srt_file
    rw [create_srt_foldl]
    simp
  · rw [List.enumFrom_map_fst]

lemma collector_get (client : Str → Option (Option Str)) (chunks : List (Str × ℕ × ℕ))
    (i : ℕ) (hi : i < chunks.length)
    (hi' : i < (process_chunks_and_collect_transcripts client chunks).length) :
    (process_chunks_and_collect_transcripts client chunks).get ⟨i, hi'⟩ =
      collect_one client (chunks.get ⟨i, hi⟩) := by
  simp [process_chunks_and_collect_transcripts]

lemma collect_one_start (client : Str → Option (Option Str)) (chunk : Str × ℕ × ℕ) :
    (collect_one client chunk).start_time = chunk.2.1 := by
  unfold collect_one
  rcases client chunk.1 with _ | mi
  · rfl
  · rcases mi with _ | t <;> rfl

lemma collect_one_end (client : Str → Option (Option Str)) (chunk : Str × ℕ × ℕ) :
    (collect_one client chunk).end_time = chunk.2.2 := by
  unfold collect_one
  rcases client chunk.1 with _ | mi
  · rfl
  · rcases mi with _ | t <;> rfl

/-- Claim C4.  The transcript collector returns one entry per chunk, in order, each
preserving its chunk's nominal start and end; a chunk whose client call
yields a transcript carries that transcript, and a chunk whose client call
fails (sentinel `none` or a response without the `transcript` field) carries
the literal placeholder, so no failure aborts the traversal. -/
theorem collector_one_entry_per_segment (client : Str → Option (Option Str))
    (chunks : List (Str × ℕ × ℕ)) :
    (process_chunks_and_collect_transcripts client chunks).length = chunks.length ∧
    (∀ i (hi : i < chunks.length)
        (hi' : i < (process_chunks_and_collect_transcripts client chunks).length),
      ((process_chunks_and_collect_transcripts client chunks).get ⟨i, hi'⟩).start_time
          = (chunks.get ⟨i, hi⟩).2.1 ∧
      ((process_chunks_and_collect_transcripts client chunks).get ⟨i, hi'⟩).end_time
          = (chunks.get ⟨i, hi⟩).2.2 ∧
      (∀ t, client (chunks.get ⟨i, hi⟩).1 = some (some t) →
          ((process_chunks_and_collect_transcripts client chunks).get ⟨i, hi'⟩).transcript
            = t) ∧
      ((client (chunks.get ⟨i, hi⟩).1 = none ∨ client (chunks.get ⟨i, hi⟩).1 = some none) →
          ((process_chunks_and_collect_transcripts client chunks).get ⟨i, hi'⟩).transcript
            = unintelligible)) := by
  refine ⟨by simp [process_chunks_and_collect_transcripts], ?_⟩
  intro i hi hi'
  rw [collector_get client chunks i hi hi']
  refine ⟨collect_one_start client _, collect_one_end client _, ?_, ?_⟩
  · intro t ht
    unfold collect_one
    rw [ht]
  · intro ht
    unfold collect_one
    rcases ht with ht | ht <;> rw [ht]

theorem collector_one_entry_per_segment_witness :
    ((process_chunks_and_collect_transcripts (fun _ => none)
        [(sample_mp3_path, 0, 7000)]).get ⟨0, by decide⟩).transcript = unintelligible :=
  ((collector_one_entry_per_segment (fun _ => none) [(sample_mp3_path, 0, 7000)]).2 0
      (by decide) (by decide)).2.2.2 (Or.inl rfl)

/-- Claim C8.  A path whose detected MIME type is outside the allow-list makes the
client fail locally with zero HTTP requests; for an allowed path the client
performs exactly one request (it never retries), and both a transport error
and a non-2xx status produce the failure sentinel. -/
theorem client_rejects_and_no_retry (path : Str) (http : HttpResult) :
    (guess_mime_type path ∉ allowed_audio_mimes.map some →
        send_to_sarvam_api path http = (none, 0)) ∧
    (guess_mime_type path ∈ allowed_audio_mimes.map some →
        (send_to_sarvam_api path http).2 = 1 ∧
        (http = HttpResult.transportError → (send_to_sarvam_api path http).1 = none) ∧
        (∀ status, http = HttpResult.httpError status →
            (send_to_sarvam_api path http).1 = none)) := by
  constructor
  · intro h
    simp [send_to_sarvam_api, h]
  · intro h
    refine ⟨?_, ?_, ?_⟩
    · rcases http with _ | status | body
      · simp [send_to_sarvam_api, h]
      · simp [send_to_sarvam_api, h]
      · rcases body with _ | r <;> simp [send_to_sarvam_api, h]
    · rintro rfl
      simp [send_to_sarvam_api, h]
    · rintro status rfl
      simp [send_to_sarvam_api, h]

theorem client_rejects_and_no_retry_witness :
    guess_mime_type sample_txt_path ∉ allowed_audio_mimes.map some ∧
      send_to_sarvam_api sample_txt_path HttpResult.transportError = (none, 0) ∧
      (send_to_sarvam_api sample_mp3_path HttpResult.transportError).2 = 1 :=
  ⟨by decide,
    (client_rejects_and_no_retry sample_txt_path HttpResult.transportError).1 (by decide),
    ((client_rejects_and_no_retry sample_mp3_path HttpResult.transportError).2 (by decide)).1⟩

/-- Claim C6 counterexample.  The claim says a 2xx response whose parsed body lacks
the `transcript` field makes the transcribe operation itself return the
failure sentinel; but `send_to_sarvam_api` returns the parsed body
unchecked, a non-sentinel value, as here for an allowed `.mp3` path. -/
theorem client_missing_field_counterexample :
    (send_to_sarvam_api sample_mp3_path (HttpResult.ok (some none))).1 ≠ none := by
  decide

/-- Claim C6, amended.  On a 2xx response with a parseable body the client
returns the body regardless of whether the `transcript` field is present;
the absence of the field is detected only by the collector, which replaces
that segment's text with the placeholder. -/
theorem client_missing_field_amended (path : Str)
    (h : guess_mime_type path ∈ allowed_audio_mimes.map some) (body : Option Str) :
    (send_to_sarvam_api path (HttpResult.ok (some body))).1 = some body ∧
    (∀ start_ms end_ms : ℕ,
        process_chunks_and_collect_transcripts
            (fun p => (send_to_sarvam_api p (HttpResult.ok (some none))).1)
            [(path, start_ms, end_ms)]
          = [{ start_time := start_ms, end_time := end_ms,
               transcript := unintelligible }]) := by
  constructor
  · simp [send_to_sarvam_api, h]
  · intro s e
    have hsend : (send_to_sarvam_api path (HttpResult.ok (some none))).1 = some none := by
      simp [send_to_sarvam_api, h]
    simp [process_chunks_and_collect_transcripts, collect_one, hsend]

theorem client_missing_field_amended_witness :
    guess_mime_type sample_mp3_path ∈ allowed_audio_mimes.map some ∧
      (send_to_sarvam_api sample_mp3_path (HttpResult.ok (some none))).1 = some none :=
  ⟨by decide, (client_missing_field_amended sample_mp3_path (by decide) none).1⟩
